import Mathlib

/-!
Verification of the latex-gui document model and LaTeX generator.

The definitions below are a shallow embedding of the repository's core:

* `src/latex-gui/src/latexModel.ts` — the node taxonomy (`DocNode`,
  `TableNode`, `FigureNode`, `EquationNode`, `DocumentRoot`) and the pure
  generator `generateLatex` with its helpers `esc`, `emitNode`,
  `emitTable`, `emitFigure`.
* `src/latex-gui/src/App.vue` (and its sibling copy under `src/unnamed/part_001`)
  — the mutation operations: the add actions (`addChapter`, `addSection`,
  `addSubsection`, `addText`, `addTable`, `addFigure`, `addPageBreak`),
  `moveSelected`, `deleteNodeOnly`, `setCellColor`, and the table grid
  resize button handlers.

Modelling conventions:

* TypeScript objects become Lean structures; the string-literal unions
  (`NodeType`, `TableStyle`, `TableWidthMode`, `EquationMode`, column
  alignment) become closed inductives.
* Optional fields (`title?`, `content?`) become `Option String`; an
  absent `children` array and an empty one are identified (the code
  treats them identically via `?.` and `?? []`).
* JS numbers holding integers (`rows`, `cols`, timestamps) become `Nat`;
  the fractional widths (`width`, `maxWidthFactor`), which the code only
  stores and renders with `toFixed(2)`, become `Rat`.
* Out-of-range JS array indexing, which yields `undefined`, is embedded
  with `List.getD` / `List.getElem?` and `Option`; the falsy test on a
  `string | null` entry (empty string and `null`/`undefined` are all
  falsy) is made explicit in `truthyStr`.
* In-place mutation of the live tree becomes a pure function returning
  the new tree.  The source locates the mutation target by a unique id
  (breadth-first in `findNodeById`, stack-order in `findParentAndIndex`)
  and mutates the single located node; the embedding performs the same
  local rewrite structurally at each node carrying that id, which agrees
  with the source whenever ids are unique in the tree — the documented
  invariant, and the hypothesis under which the theorems are stated.
-/

/-- The `docClass` union `'article' | 'report'` of `DocumentRoot`. -/
inductive DocClass where
  | article
  | report
  deriving DecidableEq

def DocClass.str : DocClass → String
  | .article => "article"
  | .report => "report"

/-- Column alignment union `'l' | 'c' | 'r'` of `TableColumn`. -/
inductive Align where
  | l
  | c
  | r
  deriving DecidableEq

def Align.str : Align → String
  | .l => "l"
  | .c => "c"
  | .r => "r"

/-- `TableColumn` from latexModel.ts: alignment plus optional fixed width. -/
structure TableColumn where
  align : Align
  width : Option String
  deriving DecidableEq

/-- `TableWidthMode = 'natural' | 'textwidth' | 'resize'`. -/
inductive TableWidthMode where
  | natural
  | textwidth
  | resize
  deriving DecidableEq

/-- `TableStyle = 'default' | 'booktabs' | 'striped' | 'minimal'`. -/
inductive TableStyle where
  | default
  | booktabs
  | striped
  | minimal
  deriving DecidableEq

/-- The table-specific fields of `TableNode` in latexModel.ts. -/
structure TableData where
  rows : Nat
  cols : Nat
  cells : List (List String)
  cellColors : List (List (Option String))
  caption : String
  label : String
  columns : List TableColumn
  hasHeader : Bool
  widthMode : TableWidthMode
  maxWidthFactor : Rat
  hPadding : String
  tableStyle : TableStyle
  deriving DecidableEq

/-- The figure-specific fields of `FigureNode` in latexModel.ts. -/
structure FigureData where
  imagePath : String
  width : Rat
  caption : String
  label : String
  deriving DecidableEq

/-- `EquationMode = 'inline' | 'display'`. -/
inductive EquationMode where
  | inline
  | display
  deriving DecidableEq

/-- The equation-specific fields of `EquationNode` in latexModel.ts. -/
structure EquationData where
  mode : EquationMode
  latex : String
  numbered : Bool
  deriving DecidableEq

/-- The per-variant payload of a `DocNode`: the `type` discriminant of the
TypeScript union together with the variant-specific fields.  The
constructor `sect` stands for the TypeScript tag `'section'` (a Lean
keyword). -/
inductive NodeKind where
  | chapter (title : Option String)
  | sect (title : Option String)
  | subsection (title : Option String)
  | text (content : Option String)
  | table (t : TableData)
  | figure (f : FigureData)
  | pagebreak
  | equation (e : EquationData)
  deriving DecidableEq

/-- A `DocNode` of latexModel.ts: a unique id, a tagged payload, and an
ordered list of children. -/
inductive DocNode where
  | mk (id : String) (kind : NodeKind) (children : List DocNode)

def DocNode.id : DocNode → String
  | .mk i _ _ => i

def DocNode.kind : DocNode → NodeKind
  | .mk _ k _ => k

def DocNode.children : DocNode → List DocNode
  | .mk _ _ cs => cs

/-- `DocumentRoot` of latexModel.ts. -/
structure DocumentRoot where
  id : String
  title : String
  author : String
  docClass : DocClass
  includeToc : Bool
  children : List DocNode

/-- `createEmptyDocument()` of latexModel.ts. -/
def createEmptyDocument : DocumentRoot :=
  { id := "doc-1"
    title := "My Report"
    author := "Author"
    docClass := .article
    includeToc := true
    children := [] }

/- ---------- the escape transform ---------- -/

/-- One character of `esc`: `'_'` becomes the two characters `\_`, any
other character is kept. -/
def escChar (c : Char) : List Char :=
  if c = '_' then ['\\', '_'] else [c]

/-- `esc` from latexModel.ts on a present string:
`s.replace(/_/g, '\\_')`, embedded character by character (the pattern is
the single character `_`, so the global replace is exactly this
character-wise expansion). -/
def escS (s : String) : String :=
  ⟨s.data.flatMap escChar⟩

/-- `esc(s)` from latexModel.ts: `(s ?? '').replace(/_/g, '\\_')`. -/
def esc (s : Option String) : String :=
  escS (s.getD "")

/- ---------- number rendering ---------- -/

/-- Renders a natural number below 100 with two digits. -/
def twoDigits (n : Nat) : String :=
  (if n < 10 then "0" else "") ++ toString n

/-- JS `Number.prototype.toFixed(2)` on the nonnegative fractions the
model stores (figure `width`, table `maxWidthFactor`): round to the
nearest hundredth (half up) and print with exactly two decimals.  The
hundredths count is `⌊100·q + 1/2⌋`, computed directly on the reduced
numerator and denominator as `(200·num + den) / (2·den)`. -/
def toFixed2 (q : Rat) : String :=
  let n : Int := (200 * q.num + q.den) / (2 * q.den)
  toString (n / 100) ++ "." ++ twoDigits (n % 100).toNat

/- ---------- the LaTeX generator ---------- -/

/-- JS truthiness for a `string | null | undefined` cell-color entry: an
absent entry, `null`, and the empty string are all falsy. -/
def truthyStr : Option String → Option String
  | some s => if s = "" then none else some s
  | none => none

/-- One rendered table cell: `color ? \cellcolor{color} content : content`
with `content = esc(c)`. -/
def renderCell (color : Option String) (c : String) : String :=
  match truthyStr color with
  | some col => "\\cellcolor\x7b" ++ col ++ "\x7d " ++ escS c
  | none => escS c

/-- The `row.map((c, colIdx) => ...)` loop of `emitTable`: each cell of
the row rendered with the color entry found at its column index (an
out-of-range lookup in `colorRow` yields `undefined`, i.e. `none`). -/
def renderCells (colors : List (Option String)) : Nat → List String → List String
  | _, [] => []
  | i, c :: rest => renderCell (colors.getD i none) c :: renderCells colors (i + 1) rest

/-- The cells-only part of one emitted table row (row index `r`):
`'    ' + cellsRendered.join(' & ') + ' \\\\'`.  A row index beyond
`cells` yields the empty row, as `node.cells[r] || []` does. -/
def tableRowLine (t : TableData) (r : Nat) : String :=
  "    " ++ String.intercalate " & "
      (renderCells (t.cellColors.getD r []) 0 (t.cells.getD r [])) ++ " \\\\"

/-- Top rule of `emitTable`: `\toprule` for booktabs, nothing for
minimal, `\hline` otherwise. -/
def topRuleLines (s : TableStyle) : List String :=
  if s = .booktabs then ["    \\toprule"]
  else if s ≠ .minimal then ["    \\hline"]
  else []

/-- Header separator emitted after row 0 when `hasHeader`: `\midrule`
for booktabs, nothing for minimal, `\hline` otherwise. -/
def headerRuleLines (s : TableStyle) : List String :=
  if s = .booktabs then ["    \\midrule"]
  else if s ≠ .minimal then ["    \\hline"]
  else []

/-- Bottom rule of `emitTable`, same style mapping as the top rule. -/
def bottomRuleLines (s : TableStyle) : List String :=
  if s = .booktabs then ["    \\bottomrule"]
  else if s ≠ .minimal then ["    \\hline"]
  else []

/-- The `for (let r = 0; r < node.rows; r++)` loop of `emitTable`: each
row line, followed (for row 0 of a header table) by the header rule. -/
def tableRowsLines (t : TableData) : List String :=
  (List.range t.rows).flatMap fun r =>
    tableRowLine t r ::
      (if r = 0 ∧ t.hasHeader then headerRuleLines t.tableStyle else [])

/-- `colSpecInner` of `emitTable`: per column `p{width}` or the
alignment letter, joined with `|`. -/
def colSpecInner (t : TableData) : String :=
  String.intercalate "|"
    (t.columns.map fun col =>
      match col.width with
      | some w => "p\x7b" ++ w ++ "\x7d"
      | none => col.align.str)

/-- `colSpecWrapped` of `emitTable`: booktabs/minimal leave the spec
bare, other styles wrap it in outer `|`; an empty inner spec falls back
to `c`. -/
def colSpecWrapped (t : TableData) : String :=
  if t.tableStyle = .booktabs ∨ t.tableStyle = .minimal then
    (if colSpecInner t = "" then "c" else colSpecInner t)
  else
    "|" ++ (if colSpecInner t = "" then "c" else colSpecInner t) ++ "|"

/-- `bodyLines` of `emitTable`: the tabular environment with rules and
rows. -/
def tableBodyLines (t : TableData) : List String :=
  ("  \\begin\x7btabular\x7d\x7b" ++ colSpecWrapped t ++ "\x7d")
    :: topRuleLines t.tableStyle
    ++ tableRowsLines t
    ++ bottomRuleLines t.tableStyle
    ++ ["  \\end\x7btabular\x7d"]

/-- `emitTable` of latexModel.ts: the lines it pushes onto `out`, in
order — the `\tabcolsep` setting, the floating table header, the striped
row-colors directive, the (possibly `\resizebox`-wrapped) tabular body,
and the float close with a trailing blank line. -/
def emitTable (t : TableData) : List String :=
  ["\\setlength\x7b\\tabcolsep\x7d\x7b" ++ t.hPadding ++ "\x7d"]
  ++ ["\\begin\x7btable\x7d[htbp]",
      "  \\centering",
      "  \\caption\x7b" ++ escS t.caption ++ "\x7d",
      "  \\label\x7btab:" ++ escS t.label ++ "\x7d"]
  ++ (if t.tableStyle = .striped then ["  \\rowcolors\x7b2\x7d\x7bgray!10\x7d\x7bwhite\x7d"] else [])
  ++ (match t.widthMode with
      | .textwidth =>
          ["  \\resizebox\x7b\\textwidth\x7d\x7b!\x7d\x7b%"] ++ tableBodyLines t ++ ["  \x7d"]
      | .resize =>
          ["  \\resizebox\x7b" ++ toFixed2 t.maxWidthFactor ++ "\\textwidth\x7d\x7b!\x7d\x7b%"]
            ++ tableBodyLines t ++ ["  \x7d"]
      | .natural => tableBodyLines t)
  ++ ["\\end\x7btable\x7d", ""]

/-- `emitFigure` of latexModel.ts. -/
def emitFigure (f : FigureData) : List String :=
  ["\\begin\x7bfigure\x7d[htbp]",
   "  \\centering",
   "  \\includegraphics[width=" ++ toFixed2 f.width ++ "\\textwidth]\x7b"
     ++ escS f.imagePath ++ "\x7d",
   "  \\caption\x7b" ++ escS f.caption ++ "\x7d",
   "  \\label\x7bfig:" ++ f.label ++ "\x7d",
   "\\end\x7bfigure\x7d",
   ""]

/-- The `switch (node.type)` of `emitNode`: the lines a node emits for
itself, before its children are emitted. -/
def emitKind : NodeKind → List String
  | .chapter title => ["\\chapter\x7b" ++ esc title ++ "\x7d", ""]
  | .sect title => ["\\section\x7b" ++ esc title ++ "\x7d", ""]
  | .subsection title => ["\\subsection\x7b" ++ esc title ++ "\x7d", ""]
  | .equation e =>
    match e.mode with
    | .inline => ["\\(" ++ e.latex ++ "\\)", ""]
    | .display =>
      let env := if e.numbered then "equation" else "equation*"
      ["\\begin\x7b" ++ env ++ "\x7d", e.latex, "\\end\x7b" ++ env ++ "\x7d", ""]
  | .text content =>
    match content with
    | some c => if c = "" then [] else [escS c, ""]
    | none => []
  | .table t => emitTable t
  | .figure f => emitFigure f
  | .pagebreak => ["\\newpage", ""]

mutual

/-- `emitNode` of latexModel.ts: the node's own lines followed by its
children's lines, in order. -/
def emitNode : DocNode → List String
  | .mk _ k cs => emitKind k ++ emitNodeList cs

/-- `node.children?.forEach((c) => emitNode(c, out))`. -/
def emitNodeList : List DocNode → List String
  | [] => []
  | c :: cs => emitNode c ++ emitNodeList cs

end

/-- The fixed preamble and title block that `generateLatex` pushes
first. -/
def preambleLines (doc : DocumentRoot) : List String :=
  ["\\documentclass[11pt,a4paper]\x7b" ++ doc.docClass.str ++ "\x7d",
   "\\usepackage\x7bgeometry\x7d",
   "\\usepackage\x7bgraphicx\x7d",
   "\\usepackage\x7bbooktabs\x7d",
   "\\usepackage\x7barray\x7d",
   "\\usepackage\x7btabularx\x7d",
   "\\usepackage\x7bamsmath\x7d",
   "\\usepackage[table]\x7bxcolor\x7d",
   "\\usepackage\x7bcolortbl\x7d",
   "\\usepackage\x7bhyperref\x7d",
   "",
   "\\begin\x7bdocument\x7d",
   "\\title\x7b" ++ escS doc.title ++ "\x7d",
   "\\author\x7b" ++ escS doc.author ++ "\x7d",
   "\\date\x7b\\today\x7d",
   "\\maketitle"]

/-- The table-of-contents block pushed when `includeToc`. -/
def tocLines : List String :=
  ["\\tableofcontents", "", "\\newpage",
   "\\listoffigures", "", "\\newpage",
   "\\listoftables", "", "\\newpage"]

/-- The ordered list of lines of `generateLatex`. -/
def docLines (doc : DocumentRoot) : List String :=
  preambleLines doc
  ++ (if doc.includeToc then tocLines else [])
  ++ (if doc.docClass = .report then ["\\chapter\x7bIntroduction\x7d", ""] else [])
  ++ emitNodeList doc.children
  ++ ["", "\\end\x7bdocument\x7d"]

/-- `generateLatex` of latexModel.ts: `lines.join('\n')`. -/
def generateLatex (doc : DocumentRoot) : String :=
  String.intercalate "\n" (docLines doc)

/- ---------- table grid resize handlers (App.vue) ---------- -/

/-- The `+ row` button handler of App.vue: `rows++`, then push one row of
empty cells and one row of `null` colors, each of length `cols`. -/
def incRow (t : TableData) : TableData :=
  { t with
    rows := t.rows + 1
    cells := t.cells ++ [List.replicate t.cols ""]
    cellColors := t.cellColors ++ [List.replicate t.cols none] }

/-- The `− row` button handler of App.vue:
`rows = Math.max(1, rows - 1); cells.pop(); cellColors.pop();`.
Both pops run unconditionally — also when the count was already clamped
at 1 (`pop` on an empty array leaves it empty, as `dropLast` does). -/
def decRow (t : TableData) : TableData :=
  { t with
    rows := max 1 (t.rows - 1)
    cells := t.cells.dropLast
    cellColors := t.cellColors.dropLast }

/-- The `+ col` button handler of App.vue: `cols++`, push a centered
column spec, and push one slot onto every row of `cells` and
`cellColors`. -/
def incCol (t : TableData) : TableData :=
  { t with
    cols := t.cols + 1
    columns := t.columns ++ [⟨Align.c, none⟩]
    cells := t.cells.map (· ++ [""])
    cellColors := t.cellColors.map (· ++ [none]) }

/-- The `− col` button handler of App.vue:
`cols = Math.max(1, cols - 1)` then `columns.pop()` and a `pop()` on
every row of `cells` and `cellColors` — again unconditionally. -/
def decCol (t : TableData) : TableData :=
  { t with
    cols := max 1 (t.cols - 1)
    columns := t.columns.dropLast
    cells := t.cells.map List.dropLast
    cellColors := t.cellColors.map List.dropLast }

/-- The table data `addTable` creates: fixed 3×3 shape, empty cells,
absent colors, centered columns, header on, natural width, factor 1.0,
half-em padding, default style. -/
def newTableData : TableData :=
  { rows := 3
    cols := 3
    cells := List.replicate 3 (List.replicate 3 "")
    cellColors := List.replicate 3 (List.replicate 3 none)
    caption := "Table caption"
    label := "table:label"
    columns := List.replicate 3 ⟨Align.c, none⟩
    hasHeader := true
    widthMode := .natural
    maxWidthFactor := 1
    hPadding := "0.5em"
    tableStyle := .default }

/- ---------- setCellColor (App.vue) ---------- -/

/-- A JS array element assignment `arr[i] = v` on a `(string | null)[]`:
within bounds it overwrites the slot; past the end it extends the array,
filling the gap with holes (which read back as `undefined`, i.e.
`none`). -/
def jsSetIdx (l : List (Option String)) (i : Nat) (v : Option String) : List (Option String) :=
  if i < l.length then l.set i v
  else l ++ List.replicate (i - l.length) none ++ [v]

/-- `setCellColor` of App.vue, at the point where a table node and a
selected cell address are in hand: `if (!t.cellColors[row]) return;`
(an out-of-range row reads `undefined`, which is falsy; any present row
array is truthy), then `t.cellColors[row][col] = color`. -/
def setCellColor (t : TableData) (row col : Nat) (color : Option String) : TableData :=
  match t.cellColors[row]? with
  | none => t
  | some r => { t with cellColors := t.cellColors.set row (jsSetIdx r col color) }

/- ---------- moveSelected (App.vue) ---------- -/

/-- The splice pair of `moveSelected`, acting on the located parent's
children at the located index: compute `newIndex = index + delta`, no-op
when it falls outside `[0, length - 1]`, else remove the element at
`index` and reinsert it at `newIndex`. -/
def moveInList (cs : List DocNode) (index : Nat) (delta : Int) : List DocNode :=
  let newIndex : Int := (index : Int) + delta
  if newIndex < 0 ∨ (cs.length : Int) ≤ newIndex then cs
  else
    match cs[index]? with
    | none => cs
    | some removed => (cs.eraseIdx index).insertIdx newIndex.toNat removed

mutual

/-- `moveSelected` at an interior node: if one of this node's children
carries the id (`findParentAndIndex` found this node as the parent),
splice within its children; otherwise keep searching below. -/
def moveNode (id : String) (delta : Int) : DocNode → DocNode
  | .mk i k cs =>
    if cs.any (fun c => c.id = id) then
      .mk i k (moveInList cs (cs.findIdx (fun c => c.id = id)) delta)
    else
      .mk i k (moveNodeList id delta cs)

def moveNodeList (id : String) (delta : Int) : List DocNode → List DocNode
  | [] => []
  | c :: cs => moveNode id delta c :: moveNodeList id delta cs

end

/-- `moveSelected(delta)` of App.vue with the selected id in hand:
locate the parent of `id` (the root when the id sits among the root's
children) and apply the splice pair there. -/
def moveSelected (id : String) (delta : Int) (doc : DocumentRoot) : DocumentRoot :=
  if doc.children.any (fun c => c.id = id) then
    { doc with children := moveInList doc.children (doc.children.findIdx (fun c => c.id = id)) delta }
  else
    { doc with children := moveNodeList id delta doc.children }

/- ---------- deleteNodeOnly (App.vue / part_001) ---------- -/

/-- The splice pair of `deleteNodeOnly` on the located parent's
children: remove the first child carrying the id and reinsert its
children in its place (`splice(index, 1)` then
`splice(index, 0, ...removed.children)`; with no children nothing is
reinserted, which the concatenation with an empty list also gives). -/
def spliceOut (id : String) : List DocNode → List DocNode
  | [] => []
  | c :: rest => if c.id = id then c.children ++ rest else c :: spliceOut id rest

mutual

/-- `deleteNodeOnly` at an interior node: if one of this node's children
carries the id, splice there; otherwise keep searching below. -/
def delOnlyNode (id : String) : DocNode → DocNode
  | .mk i k cs =>
    if cs.any (fun c => c.id = id) then .mk i k (spliceOut id cs)
    else .mk i k (delOnlyList id cs)

def delOnlyList (id : String) : List DocNode → List DocNode
  | [] => []
  | c :: cs => delOnlyNode id c :: delOnlyList id cs

end

/-- `deleteNodeOnly(id)` of part_001: locate the parent of `id` and
splice the node out there, promoting its children into its place. -/
def deleteNodeOnly (id : String) (doc : DocumentRoot) : DocumentRoot :=
  if doc.children.any (fun c => c.id = id) then
    { doc with children := spliceOut id doc.children }
  else
    { doc with children := delOnlyList id doc.children }

/- ---------- node lookup and the add actions (App.vue) ---------- -/

mutual

/-- Lookup of a node by id inside one subtree.  `findNodeById` in the
source scans breadth-first and returns the first match; with unique ids
(the documented invariant) the first match is the only match, so this
depth-first first-match scan locates the same node. -/
def findNodeInNode (sid : String) : DocNode → Option DocNode
  | .mk i k cs =>
    if i = sid then some (.mk i k cs) else findNodeInList sid cs

def findNodeInList (sid : String) : List DocNode → Option DocNode
  | [] => none
  | c :: cs =>
    match findNodeInNode sid c with
    | some n => some n
    | none => findNodeInList sid cs

end

mutual

/-- Appending a child onto the node carrying id `sid` (the
`target.children.push(...)` of the add actions, applied to the located
node). -/
def appendAtNode (sid : String) (child : DocNode) : DocNode → DocNode
  | .mk i k cs =>
    if i = sid then .mk i k (cs ++ [child])
    else .mk i k (appendAtList sid child cs)

def appendAtList (sid : String) (child : DocNode) : List DocNode → List DocNode
  | [] => []
  | c :: cs => appendAtNode sid child c :: appendAtList sid child cs

end

/-- `const target = selectedNode.value ?? doc.value` followed by
`target.children.push(child)`: append at the selected node when its id
resolves, else at the root. -/
def appendToTarget (sel : Option String) (child : DocNode) (doc : DocumentRoot) : DocumentRoot :=
  match sel with
  | some sid =>
    match findNodeInList sid doc.children with
    | some _ => { doc with children := appendAtList sid child doc.children }
    | none => { doc with children := doc.children ++ [child] }
  | none => { doc with children := doc.children ++ [child] }

/-- Is the node a chapter, section or subsection (the target filter of
`addSection`)? -/
def NodeKind.isHeading : NodeKind → Bool
  | .chapter _ => true
  | .sect _ => true
  | .subsection _ => true
  | _ => false

/-- Is the node a section or subsection (the precondition of
`addSubsection`)? -/
def NodeKind.isSectionLike : NodeKind → Bool
  | .sect _ => true
  | .subsection _ => true
  | _ => false

/-- The nodes the add actions create (`'xxx-' + Date.now()` ids; the
wall-clock value is the explicit `now` argument here). -/
def newChapterNode (now : Nat) : DocNode :=
  .mk ("chap-" ++ toString now) (.chapter (some "New Chapter")) []

def newSectionNode (now : Nat) : DocNode :=
  .mk ("sec-" ++ toString now) (.sect (some "New Section")) []

def newSubsectionNode (now : Nat) : DocNode :=
  .mk ("sub-" ++ toString now) (.subsection (some "New Subsection")) []

def newTextNode (now : Nat) : DocNode :=
  .mk ("txt-" ++ toString now) (.text (some "Write text here.")) []

def newTableNode (now : Nat) : DocNode :=
  .mk ("tab-" ++ toString now) (.table newTableData) []

def newFigureNode (now : Nat) : DocNode :=
  .mk ("fig-" ++ toString now)
    (.figure { imagePath := "figures/example.png", width := Rat.divInt 4 5,
               caption := "Figure caption", label := "figure:label" }) []

def newPageBreakNode (now : Nat) : DocNode :=
  .mk ("pb-" ++ toString now) .pagebreak []

/-- `addChapter()` of App.vue: always appends to the root's children. -/
def addChapter (now : Nat) (doc : DocumentRoot) : DocumentRoot :=
  { doc with children := doc.children ++ [newChapterNode now] }

/-- `addSection()` of App.vue: appends under the selected node when it
is a chapter/section/subsection, else under the root. -/
def addSection (now : Nat) (sel : Option String) (doc : DocumentRoot) : DocumentRoot :=
  let child := newSectionNode now
  match sel with
  | some sid =>
    match findNodeInList sid doc.children with
    | some n =>
      if n.kind.isHeading then
        { doc with children := appendAtList sid child doc.children }
      else
        { doc with children := doc.children ++ [child] }
    | none => { doc with children := doc.children ++ [child] }
  | none => { doc with children := doc.children ++ [child] }

/-- `addSubsection()` of App.vue: a no-op unless the selected node is a
section or subsection. -/
def addSubsection (now : Nat) (sel : Option String) (doc : DocumentRoot) : DocumentRoot :=
  match sel with
  | some sid =>
    match findNodeInList sid doc.children with
    | some n =>
      if n.kind.isSectionLike then
        { doc with children := appendAtList sid (newSubsectionNode now) doc.children }
      else doc
    | none => doc
  | none => doc

/-- `addText()` of App.vue. -/
def addText (now : Nat) (sel : Option String) (doc : DocumentRoot) : DocumentRoot :=
  appendToTarget sel (newTextNode now) doc

/-- `addTable()` of App.vue. -/
def addTable (now : Nat) (sel : Option String) (doc : DocumentRoot) : DocumentRoot :=
  appendToTarget sel (newTableNode now) doc

/-- `addFigure()` of App.vue. -/
def addFigure (now : Nat) (sel : Option String) (doc : DocumentRoot) : DocumentRoot :=
  appendToTarget sel (newFigureNode now) doc

/-- `addPageBreak()` of App.vue. -/
def addPageBreak (now : Nat) (sel : Option String) (doc : DocumentRoot) : DocumentRoot :=
  appendToTarget sel (newPageBreakNode now) doc

/-- The seven add actions, named. -/
inductive AddOp where
  | chapter
  | sect
  | subsection
  | text
  | table
  | figure
  | pagebreak
  deriving DecidableEq

/-- The id prefix each add action stamps. -/
def stampLead : AddOp → String
  | .chapter => "chap-"
  | .sect => "sec-"
  | .subsection => "sub-"
  | .text => "txt-"
  | .table => "tab-"
  | .figure => "fig-"
  | .pagebreak => "pb-"

/-- The id an add action stamps: its prefix plus the `Date.now()` value
it observes. -/
def stampedId (op : AddOp) (now : Nat) : String :=
  stampLead op ++ toString now

/-- Dispatch of one add action with the timestamp it observes and the
selection in effect. -/
def applyAdd (op : AddOp) (now : Nat) (sel : Option String) (doc : DocumentRoot) : DocumentRoot :=
  match op with
  | .chapter => addChapter now doc
  | .sect => addSection now sel doc
  | .subsection => addSubsection now sel doc
  | .text => addText now sel doc
  | .table => addTable now sel doc
  | .figure => addFigure now sel doc
  | .pagebreak => addPageBreak now sel doc

/-- A sequence of add actions, each with its observed timestamp and the
selection in effect when it ran. -/
def applyAdds (ops : List (AddOp × Nat × Option String)) (doc : DocumentRoot) : DocumentRoot :=
  ops.foldl (fun d step => applyAdd step.1 step.2.1 step.2.2 d) doc

/- ---------- node ids ---------- -/

mutual

/-- All ids of a subtree, the node's own id first (preorder). -/
def nodeIds : DocNode → List String
  | .mk i _ cs => i :: idsList cs

def idsList : List DocNode → List String
  | [] => []
  | c :: cs => nodeIds c ++ idsList cs

end

/-- All ids of a document: the root's id and every node's id. -/
def docIds (doc : DocumentRoot) : List String :=
  doc.id :: idsList doc.children

/-- Every node's identifier is unique across the whole tree. -/
def uniqueIds (doc : DocumentRoot) : Prop :=
  (docIds doc).Nodup

instance (doc : DocumentRoot) : Decidable (uniqueIds doc) := by
  unfold uniqueIds; infer_instance

/- ---------- spec-side definitions and concrete inputs ---------- -/

/-- The figure block as the spec describes it, with the label prefix as
the code writes it (`fig:`): a floating figure, centered, the image
scaled to the width fraction rendered with two decimals, the escaped
caption, the label built from the fixed prefix plus the raw label, and
the float closed. -/
def specFigureBlock (f : FigureData) : List String :=
  ["\\begin\x7bfigure\x7d[htbp]",
   "  \\centering",
   "  \\includegraphics[width=" ++ toFixed2 f.width ++ "\\textwidth]\x7b"
     ++ escS f.imagePath ++ "\x7d",
   "  \\caption\x7b" ++ escS f.caption ++ "\x7d",
   "  \\label\x7bfig:" ++ f.label ++ "\x7d",
   "\\end\x7bfigure\x7d",
   ""]

/-- The spec's style mapping for the top and bottom table rules:
booktabs uses the named booktabs command, minimal emits nothing,
default and striped emit a plain `\hline`. -/
def specRule (s : TableStyle) (cmd : String) : List String :=
  match s with
  | .booktabs => ["    " ++ cmd]
  | .minimal => []
  | .default => ["    \\hline"]
  | .striped => ["    \\hline"]

/-- A scanner for a bare (unescaped) underscore: an `'_'` that is not
immediately preceded by a `'\'`. -/
def hasBareUnderscore : List Char → Bool
  | [] => false
  | '_' :: _ => true
  | '\\' :: '_' :: rest => hasBareUnderscore rest
  | _ :: rest => hasBareUnderscore rest

/-- A well-formed 1×1 table, used as a concrete input below. -/
def oneCellTable : TableData :=
  { newTableData with
    rows := 1
    cols := 1
    cells := [[""]]
    cellColors := [[none]]
    columns := [⟨Align.c, none⟩] }

/- ====================================================================
   Theorems
   ==================================================================== -/

/- ---------- generic string and list helpers ---------- -/

theorem str_data_append (a b : String) : (a ++ b).data = a.data ++ b.data := rfl

/-- Two strings differ when one starts with a chunk that is not a
prefix of the other. -/
theorem append_ne_of_not_lead (p m q : String) (h : ¬ p.data <+: q.data) :
    p ++ m ≠ q := by
  intro he
  exact h (he ▸ (str_data_append p m ▸ List.prefix_append p.data m.data))

/-- Two strings differ when one ends with a chunk that is not a suffix
of the other. -/
theorem append_ne_of_not_tail (m s q : String) (h : ¬ s.data <:+ q.data) :
    m ++ s ≠ q := by
  intro he
  exact h (he ▸ (str_data_append m s ▸ List.suffix_append m.data s.data))

theorem str_append_assoc (a b c : String) : a ++ b ++ c = a ++ (b ++ c) := by
  apply String.ext
  simp only [str_data_append, List.append_assoc]

/-- Nested induction principle for `DocNode` and its child lists. -/
theorem docNode_ind (P : DocNode → Prop) (Q : List DocNode → Prop)
    (hmk : ∀ i k cs, Q cs → P (.mk i k cs))
    (hnil : Q [])
    (hcons : ∀ c cs, P c → Q cs → Q (c :: cs)) :
    (∀ n, P n) ∧ (∀ cs, Q cs) :=
  ⟨fun n => DocNode.rec (motive_1 := P) (motive_2 := Q) hmk hnil hcons n,
   fun cs => List.rec hnil (fun c cs' ih =>
     hcons c cs' (DocNode.rec (motive_1 := P) (motive_2 := Q) hmk hnil hcons c) ih) cs⟩

/- ---------- claim C1: grid lock-step / clamped decrement ---------- -/

/-- Claim C1 (code bug exhibit).  The claim states that decrementing the
row (or column) count of a table already at 1 is a no-op leaving the
count at 1 and `cells`, `cellColors`, `columns` unchanged.  The handlers
clamp the count with `Math.max(1, n - 1)` but run the `pop()`s
unconditionally, so the grids shrink anyway: starting from the default
3×3 table of `addTable`, three row decrements leave `rows = 1` but both
grids empty, and three column decrements leave `cols = 1` but
`columns` empty and every grid row empty. -/
theorem decRow_decCol_pop_even_when_clamped :
    ((decRow (decRow (decRow newTableData))).rows = 1 ∧
     (decRow (decRow (decRow newTableData))).cells = [] ∧
     (decRow (decRow (decRow newTableData))).cellColors = []) ∧
    ((decCol (decCol (decCol newTableData))).cols = 1 ∧
     (decCol (decCol (decCol newTableData))).columns = [] ∧
     (decCol (decCol (decCol newTableData))).cells = [[], [], []] ∧
     (decCol (decCol (decCol newTableData))).cellColors = [[], [], []]) := by
  decide

/- ---------- claim C5: setCellColor bounds ---------- -/

/-- Claim C5 counterexample.  The claim states that a cell-color set at
an address outside the current grid shape is a no-op leaving the table
entirely unchanged.  On a well-formed 1×1 table, setting column index 5
of row 0 is accepted (only the row is bounds-checked) and extends the
color row, so the table does change. -/
theorem setCellColor_out_of_grid_mutates :
    setCellColor oneCellTable 0 5 (some "red!15") ≠ oneCellTable := by
  decide

/-- Claim C5 as amended.  `setCellColor` writes (or clears) the color at
exactly the addressed slot when the address lies within the color grid,
and is a no-op when the row is out of range; but when the row is in
range and the column is beyond that row, it is not a no-op: the color
row is extended with absent entries up to the column and the color is
written there.  (Under the grid-shape invariant the color grid is
exactly `rows × cols`, so "within the color grid" is "within the
rows × cols grid".) -/
theorem setCellColor_cases (t : TableData) (row col : Nat) (color : Option String) :
    (∀ h : row < t.cellColors.length,
      (col < (t.cellColors.get ⟨row, h⟩).length →
        setCellColor t row col color =
          { t with cellColors :=
              t.cellColors.set row ((t.cellColors.get ⟨row, h⟩).set col color) }) ∧
      ((t.cellColors.get ⟨row, h⟩).length ≤ col →
        setCellColor t row col color =
          { t with cellColors :=
              (t.cellColors.set row ((t.cellColors.get ⟨row, h⟩) ++ List.replicate (col - (t.cellColors.get ⟨row, h⟩).length) none ++ [color])) })) ∧
    (t.cellColors.length ≤ row → setCellColor t row col color = t) := by
  constructor
  · intro h
    have hsome : t.cellColors[row]? = some (t.cellColors.get ⟨row, h⟩) :=
      List.getElem?_eq_getElem h
    constructor
    · intro hcol
      simp only [List.get_eq_getElem] at hcol
      simp [setCellColor, hsome, jsSetIdx, hcol]
    · intro hcol
      simp only [List.get_eq_getElem] at hcol
      simp [setCellColor, hsome, jsSetIdx, Nat.not_lt_of_le hcol]
  · intro h
    simp [setCellColor, List.getElem?_eq_none h]

/-- Claim C5 witness: in-grid write and out-of-range-row no-op at a
concrete table. -/
theorem setCellColor_cases_witness :
    setCellColor oneCellTable 0 0 (some "yellow!20")
        = { oneCellTable with cellColors := [[some "yellow!20"]] } ∧
    setCellColor oneCellTable 2 0 (some "yellow!20") = oneCellTable := by
  constructor
  · exact (((setCellColor_cases oneCellTable 0 0 (some "yellow!20")).1
      (by decide)).1 (by decide)).trans (by decide)
  · exact (setCellColor_cases oneCellTable 2 0 (some "yellow!20")).2 (by decide)

/- ---------- claim C6: figure emission ---------- -/

/-- Claim C6 counterexample.  The claim states the figure label carries
the fixed prefix `figure:`; the code writes `fig:`.  For a concrete
figure labelled `L`, no line of the emitted block contains the substring
`figure:L`. -/
theorem emitFigure_label_prefix_not_figure :
    ¬ ∃ l ∈ emitFigure { imagePath := "img.png", width := Rat.divInt 4 5,
                          caption := "cap", label := "L" },
        "figure:L".data <:+: l.data := by
  decide

/-- Claim C6 as amended (the label prefix is `fig:`, not `figure:`).
`emitFigure` emits exactly the floating figure block the spec describes:
centered, the image inclusion scaled to the width fraction rendered with
two decimals, the escaped caption, and a label made of the fixed `fig:`
prefix plus the raw (unescaped) label field. -/
theorem emitFigure_matches_spec_block (f : FigureData) :
    emitFigure f = specFigureBlock f ∧
    ("  \\label\x7bfig:" ++ f.label ++ "\x7d") ∈ emitFigure f ∧
    ("  \\caption\x7b" ++ escS f.caption ++ "\x7d") ∈ emitFigure f ∧
    ("  \\includegraphics[width=" ++ toFixed2 f.width ++ "\\textwidth]\x7b"
        ++ escS f.imagePath ++ "\x7d") ∈ emitFigure f := by
  refine ⟨rfl, ?_, ?_, ?_⟩ <;> simp [emitFigure]

/- ---------- claim C7: the automatic Introduction chapter ---------- -/

/-- Claim C7.  The document-level emission contributes the
`Introduction` chapter heading exactly once for a report-class document
and never for an article-class document: the count of that heading line
in the full output is the class contribution plus whatever the
user's own nodes emit. -/
theorem intro_chapter_emission (doc : DocumentRoot) :
    (docLines doc).count "\\chapter\x7bIntroduction\x7d"
      = (if doc.docClass = DocClass.report then 1 else 0)
        + (emitNodeList doc.children).count "\\chapter\x7bIntroduction\x7d" := by
  have hne1 : ("\\title\x7b" ++ escS doc.title ++ "\x7d") ≠ "\\chapter\x7bIntroduction\x7d" := by
    rw [str_append_assoc]
    exact append_ne_of_not_lead _ _ _ (by decide)
  have hne2 : ("\\author\x7b" ++ escS doc.author ++ "\x7d") ≠ "\\chapter\x7bIntroduction\x7d" := by
    rw [str_append_assoc]
    exact append_ne_of_not_lead _ _ _ (by decide)
  have hpre : (preambleLines doc).count "\\chapter\x7bIntroduction\x7d" = 0 := by
    refine List.count_eq_zero.mpr ?_
    intro hm
    simp only [preambleLines, List.mem_cons, List.not_mem_nil, or_false] at hm
    rcases hm with h|h|h|h|h|h|h|h|h|h|h|h|h|h|h|h
    · cases hdc : doc.docClass <;> rw [hdc] at h <;> exact absurd h (by decide)
    · exact absurd h (by decide)
    · exact absurd h (by decide)
    · exact absurd h (by decide)
    · exact absurd h (by decide)
    · exact absurd h (by decide)
    · exact absurd h (by decide)
    · exact absurd h (by decide)
    · exact absurd h (by decide)
    · exact absurd h (by decide)
    · exact absurd h (by decide)
    · exact absurd h (by decide)
    · exact hne1 h.symm
    · exact hne2 h.symm
    · exact absurd h (by decide)
    · exact absurd h (by decide)
  have htoc : (if doc.includeToc then tocLines else []).count "\\chapter\x7bIntroduction\x7d" = 0 := by
    cases doc.includeToc
    · simp
    · simp only [if_pos]
      decide
  have hint : (if doc.docClass = .report then ["\\chapter\x7bIntroduction\x7d", ""] else []).count
      "\\chapter\x7bIntroduction\x7d" = (if doc.docClass = DocClass.report then 1 else 0) := by
    cases doc.docClass <;> simp
  have hclose : (["", "\\end\x7bdocument\x7d"] : List String).count "\\chapter\x7bIntroduction\x7d" = 0 := by
    decide
  simp only [docLines, List.count_append, hpre, htoc, hint, hclose]
  omega

/- ---------- claim C8: table rule styles ---------- -/

/-- A rendered cell row never coincides with a rule line: it ends in the
row terminator. -/
theorem tableRowLine_ne (t : TableData) (r : Nat) (q : String)
    (h : ¬ " \\\\".data <:+ q.data) : tableRowLine t r ≠ q := by
  unfold tableRowLine
  exact append_ne_of_not_tail _ _ _ h

/-- Every line of the tabular body appears in the emitted table block. -/
theorem mem_emitTable_of_mem_body (t : TableData) (a : String)
    (h : a ∈ tableBodyLines t) : a ∈ emitTable t := by
  unfold emitTable
  cases t.widthMode <;>
    by_cases hs : t.tableStyle = .striped <;>
      simp [hs, List.mem_append] <;> tauto

/-- Counting a rule-style line in the whole table block reduces to
counting it in the tabular body: no other emitted line can equal it. -/
theorem emitTable_count_eq_body (t : TableData) (a : String)
    (h1 : ¬ "\\setlength\x7b\\tabcolsep\x7d\x7b".data <+: a.data)
    (h2 : a ≠ "\\begin\x7btable\x7d[htbp]") (h3 : a ≠ "  \\centering")
    (h4 : ¬ "  \\caption\x7b".data <+: a.data)
    (h5 : ¬ "  \\label\x7btab:".data <+: a.data)
    (h6 : a ≠ "  \\rowcolors\x7b2\x7d\x7bgray!10\x7d\x7bwhite\x7d")
    (h7 : ¬ "  \\resizebox\x7b".data <+: a.data)
    (h8 : a ≠ "  \x7d") (h9 : a ≠ "\\end\x7btable\x7d") (h10 : a ≠ "") :
    (emitTable t).count a = (tableBodyLines t).count a := by
  have hs1 : ("\\setlength\x7b\\tabcolsep\x7d\x7b" ++ t.hPadding ++ "\x7d") ≠ a := by
    rw [str_append_assoc]
    exact append_ne_of_not_lead _ _ _ h1
  have hs4 : ("  \\caption\x7b" ++ escS t.caption ++ "\x7d") ≠ a := by
    rw [str_append_assoc]
    exact append_ne_of_not_lead _ _ _ h4
  have hs5 : ("  \\label\x7btab:" ++ escS t.label ++ "\x7d") ≠ a := by
    rw [str_append_assoc]
    exact append_ne_of_not_lead _ _ _ h5
  have hs7a : "  \\resizebox\x7b\\textwidth\x7d\x7b!\x7d\x7b%" ≠ a := by
    rw [show ("  \\resizebox\x7b\\textwidth\x7d\x7b!\x7d\x7b%" : String)
          = "  \\resizebox\x7b" ++ "\\textwidth\x7d\x7b!\x7d\x7b%" by decide]
    exact append_ne_of_not_lead _ _ _ h7
  have hs7b : ("  \\resizebox\x7b" ++ toFixed2 t.maxWidthFactor ++ "\\textwidth\x7d\x7b!\x7d\x7b%") ≠ a := by
    rw [str_append_assoc]
    exact append_ne_of_not_lead _ _ _ h7
  unfold emitTable
  cases t.widthMode <;>
    by_cases hst : t.tableStyle = .striped <;>
      simp [hst, List.count_append, List.count_cons, List.count_singleton,
        hs1, hs4, hs5, hs7a, hs7b, h2, h3, h6, h8, h9, h10]

/-- Claim C8.  For a booktabs table with 2 rows and a header row, the
tabular body is exactly: open, `\toprule`, row 0, `\midrule`
(immediately after row 0), row 1, `\bottomrule`, close; the whole
emitted block contains exactly one `\midrule`, no plain `\hline`, a
`\toprule` and a `\bottomrule`.  And for every style, the top and
bottom rules follow the spec's mapping (booktabs command / nothing for
minimal / plain rule for default and striped). -/
theorem booktabs_table_rules (t : TableData)
    (hstyle : t.tableStyle = .booktabs) (hrows : t.rows = 2) (hheader : t.hasHeader = true) :
    tableBodyLines t =
      ["  \\begin\x7btabular\x7d\x7b" ++ colSpecWrapped t ++ "\x7d",
       "    \\toprule", tableRowLine t 0, "    \\midrule", tableRowLine t 1,
       "    \\bottomrule", "  \\end\x7btabular\x7d"] ∧
    (emitTable t).count "    \\midrule" = 1 ∧
    (emitTable t).count "    \\hline" = 0 ∧
    "    \\toprule" ∈ emitTable t ∧
    "    \\bottomrule" ∈ emitTable t ∧
    (∀ s : TableStyle, topRuleLines s = specRule s "\\toprule"
        ∧ bottomRuleLines s = specRule s "\\bottomrule") := by
  have hbody : tableBodyLines t =
      ["  \\begin\x7btabular\x7d\x7b" ++ colSpecWrapped t ++ "\x7d",
       "    \\toprule", tableRowLine t 0, "    \\midrule", tableRowLine t 1,
       "    \\bottomrule", "  \\end\x7btabular\x7d"] := by
    simp [tableBodyLines, topRuleLines, bottomRuleLines, tableRowsLines,
      headerRuleLines, hstyle, hrows, hheader, List.range_succ]
  have hopen : ∀ q : String, ¬ "  \\begin\x7btabular\x7d\x7b".data <+: q.data →
      ("  \\begin\x7btabular\x7d\x7b" ++ colSpecWrapped t ++ "\x7d") ≠ q := by
    intro q hq
    rw [str_append_assoc]
    exact append_ne_of_not_lead _ _ _ hq
  refine ⟨hbody, ?_, ?_, ?_, ?_, ?_⟩
  · rw [emitTable_count_eq_body t _ (by decide) (by decide) (by decide) (by decide)
      (by decide) (by decide) (by decide) (by decide) (by decide) (by decide), hbody]
    rw [List.count_cons_of_ne (Ne.symm (hopen _ (by decide)))]
    rw [List.count_cons_of_ne (by decide)]
    rw [List.count_cons_of_ne (Ne.symm (tableRowLine_ne t 0 _ (by decide)))]
    rw [List.count_cons_self]
    rw [List.count_cons_of_ne (Ne.symm (tableRowLine_ne t 1 _ (by decide)))]
    rw [List.count_cons_of_ne (by decide)]
    rw [List.count_cons_of_ne (by decide)]
    rfl
  · rw [emitTable_count_eq_body t _ (by decide) (by decide) (by decide) (by decide)
      (by decide) (by decide) (by decide) (by decide) (by decide) (by decide), hbody]
    rw [List.count_cons_of_ne (Ne.symm (hopen _ (by decide)))]
    rw [List.count_cons_of_ne (by decide)]
    rw [List.count_cons_of_ne (Ne.symm (tableRowLine_ne t 0 _ (by decide)))]
    rw [List.count_cons_of_ne (by decide)]
    rw [List.count_cons_of_ne (Ne.symm (tableRowLine_ne t 1 _ (by decide)))]
    rw [List.count_cons_of_ne (by decide)]
    rw [List.count_cons_of_ne (by decide)]
    rfl
  · exact mem_emitTable_of_mem_body t _ (by rw [hbody]; simp)
  · exact mem_emitTable_of_mem_body t _ (by rw [hbody]; simp)
  · intro s
    cases s <;> exact ⟨by decide, by decide⟩

/-- Claim C8 witness: the rule counts at a concrete booktabs table. -/
theorem booktabs_table_rules_witness :
    (emitTable { newTableData with rows := 2, tableStyle := TableStyle.booktabs }).count
        "    \\midrule" = 1 ∧
    (emitTable { newTableData with rows := 2, tableStyle := TableStyle.booktabs }).count
        "    \\hline" = 0 :=
  ⟨(booktabs_table_rules { newTableData with rows := 2, tableStyle := TableStyle.booktabs }
      (by decide) (by decide) (by decide)).2.1,
   (booktabs_table_rules { newTableData with rows := 2, tableStyle := TableStyle.booktabs }
      (by decide) (by decide) (by decide)).2.2.1⟩

/- ---------- claims C2 and C3: sibling reorder and promoting delete ---------- -/

/-- `findIndex` returns the first index satisfying the predicate. -/
theorem findIdx_eq_of_first {α : Type} (p : α → Bool) :
    ∀ (cs : List α) (i : Nat) (hi : i < cs.length),
      p (cs.get ⟨i, hi⟩) = true →
      (∀ j (hj : j < cs.length), j < i → p (cs.get ⟨j, hj⟩) = false) →
      cs.findIdx p = i := by
  intro cs
  induction cs with
  | nil => intro i hi; simp at hi
  | cons c rest ih =>
    intro i hi hp hfirst
    cases i with
    | zero =>
      simp only [List.get] at hp
      simp [List.findIdx_cons, hp]
    | succ n =>
      have hc : p c = false := hfirst 0 (by omega) (by omega)
      simp only [List.findIdx_cons, hc, cond_false]
      have := ih n (by simpa using hi) (by simpa using hp)
        (fun j hj hlt => by simpa using hfirst (j + 1) (by omega) (by omega))
      omega

/-- The splice pair of `moveSelected`, in bounds: the moved node lands at
the target index, the remaining siblings keep their order, and the
length is unchanged. -/
theorem moveInList_spec (cs : List DocNode) (i : Nat) (delta : Int) (hi : i < cs.length)
    (h0 : 0 ≤ (i : Int) + delta) (h1 : (i : Int) + delta < cs.length) :
    (moveInList cs i delta)[((i : Int) + delta).toNat]? = some (cs.get ⟨i, hi⟩) ∧
    (moveInList cs i delta).eraseIdx ((i : Int) + delta).toNat = cs.eraseIdx i ∧
    (moveInList cs i delta).length = cs.length := by
  have hguard : ¬ ((i : Int) + delta < 0 ∨ (cs.length : Int) ≤ (i : Int) + delta) := by
    omega
  have hget : cs[i]? = some (cs.get ⟨i, hi⟩) := List.getElem?_eq_getElem hi
  have hres : moveInList cs i delta
      = (cs.eraseIdx i).insertIdx ((i : Int) + delta).toNat (cs.get ⟨i, hi⟩) := by
    simp only [moveInList, if_neg hguard, hget]
  have hlenE : (cs.eraseIdx i).length = cs.length - 1 := by
    rw [List.length_eraseIdx]
    simp [hi]
  have hn : ((i : Int) + delta).toNat ≤ (cs.eraseIdx i).length := by
    rw [hlenE]; omega
  refine ⟨?_, ?_, ?_⟩
  · rw [hres]
    rw [List.getElem?_eq_getElem (by rw [List.length_insertIdx _ _ hn]; omega)]
    rw [List.getElem_insertIdx_self _ _ _ hn]
  · rw [hres, List.eraseIdx_insertIdx]
  · rw [hres, List.length_insertIdx _ _ hn, hlenE]
    omega

/-- Claim C3.  Moving the node at index `i` among its parent's children
by `delta`: when the target index `i + delta` is within bounds the node
lands at exactly that index, all other siblings keep their relative
order (erasing the node from the result gives the same list as erasing
it from the original), and the sibling count is unchanged; when the
target is out of bounds the operation is a no-op.  The last conjunct
ties the root-level `moveSelected` to the same splice when the parent is
the document root.  (The first-match hypothesis on ids holds whenever
ids are unique, the documented invariant.) -/
theorem moveSibling_spec (p : DocNode) (i : Nat) (delta : Int) (hi : i < p.children.length)
    (hfirst : ∀ j (hj : j < p.children.length), j < i →
      (p.children.get ⟨j, hj⟩).id ≠ (p.children.get ⟨i, hi⟩).id) :
    ((0 ≤ (i : Int) + delta ∧ (i : Int) + delta < p.children.length) →
      (moveNode (p.children.get ⟨i, hi⟩).id delta p).children[((i : Int) + delta).toNat]?
          = some (p.children.get ⟨i, hi⟩) ∧
      (moveNode (p.children.get ⟨i, hi⟩).id delta p).children.eraseIdx ((i : Int) + delta).toNat
          = p.children.eraseIdx i ∧
      (moveNode (p.children.get ⟨i, hi⟩).id delta p).children.length = p.children.length) ∧
    (((i : Int) + delta < 0 ∨ (p.children.length : Int) ≤ (i : Int) + delta) →
      moveNode (p.children.get ⟨i, hi⟩).id delta p = p) ∧
    (∀ doc : DocumentRoot, doc.children = p.children →
      (moveSelected (p.children.get ⟨i, hi⟩).id delta doc).children
        = (moveNode (p.children.get ⟨i, hi⟩).id delta p).children) := by
  cases p with
  | mk pid pk cs =>
    simp only [DocNode.children] at hi hfirst ⊢
    have hany : cs.any (fun c => c.id = (cs.get ⟨i, hi⟩).id) = true := by
      rw [List.any_eq_true]
      exact ⟨cs.get ⟨i, hi⟩, List.get_mem cs i hi, by simp⟩
    have hidx : cs.findIdx (fun c => c.id = (cs.get ⟨i, hi⟩).id) = i := by
      refine findIdx_eq_of_first _ cs i hi (by simp) ?_
      intro j hj hlt
      simpa using hfirst j hj hlt
    have hmove : moveNode (cs.get ⟨i, hi⟩).id delta (DocNode.mk pid pk cs)
        = DocNode.mk pid pk (moveInList cs i delta) := by
      simp only [moveNode]
      rw [if_pos hany, hidx]
    refine ⟨?_, ?_, ?_⟩
    · intro ⟨h0, h1⟩
      rw [hmove]
      simp only [DocNode.children]
      exact moveInList_spec cs i delta hi h0 h1
    · intro hout
      rw [hmove]
      have : moveInList cs i delta = cs := by
        simp only [moveInList, if_pos hout]
      rw [this]
    · intro doc hdoc
      rw [hmove]
      simp only [moveSelected, hdoc]
      rw [if_pos hany, hidx]

/-- Claim C3 witness: a concrete three-sibling move, in and out of
bounds. -/
theorem moveSibling_spec_witness :
    (moveNode "a" 1 (DocNode.mk "p" .pagebreak
        [.mk "a" .pagebreak [], .mk "b" .pagebreak [], .mk "c" .pagebreak []])).children[1]?
      = some (.mk "a" .pagebreak []) ∧
    moveNode "a" (-1) (DocNode.mk "p" .pagebreak
        [.mk "a" .pagebreak [], .mk "b" .pagebreak [], .mk "c" .pagebreak []])
      = DocNode.mk "p" .pagebreak
        [.mk "a" .pagebreak [], .mk "b" .pagebreak [], .mk "c" .pagebreak []] := by
  have hfirst : ∀ j (hj : j < (3 : Nat)), j < 0 →
      (([DocNode.mk "a" .pagebreak [], .mk "b" .pagebreak [], .mk "c" .pagebreak []].get ⟨j, hj⟩).id
        ≠ ([DocNode.mk "a" .pagebreak [], .mk "b" .pagebreak [], .mk "c" .pagebreak []].get ⟨0, by decide⟩).id) :=
    fun j hj hlt => absurd hlt (by omega)
  constructor
  · exact ((moveSibling_spec (DocNode.mk "p" .pagebreak
        [.mk "a" .pagebreak [], .mk "b" .pagebreak [], .mk "c" .pagebreak []]) 0 1
        (by decide) hfirst).1 ⟨by decide, by decide⟩).1
  · exact (moveSibling_spec (DocNode.mk "p" .pagebreak
        [.mk "a" .pagebreak [], .mk "b" .pagebreak [], .mk "c" .pagebreak []]) 0 (-1)
        (by decide) hfirst).2.1 (Or.inl (by decide))

/-- The splice pair of `deleteNodeOnly` on the parent's children,
when the deleted node sits at the first index carrying its id. -/
theorem spliceOut_of_first : ∀ (cs : List DocNode) (i : Nat) (hi : i < cs.length),
    (∀ j (hj : j < cs.length), j < i → (cs.get ⟨j, hj⟩).id ≠ (cs.get ⟨i, hi⟩).id) →
    spliceOut (cs.get ⟨i, hi⟩).id cs
      = cs.take i ++ (cs.get ⟨i, hi⟩).children ++ cs.drop (i + 1) := by
  intro cs
  induction cs with
  | nil => intro i hi; simp at hi
  | cons c rest ih =>
    intro i hi hfirst
    cases i with
    | zero =>
      simp [spliceOut, List.append_assoc]
    | succ n =>
      have hc : c.id ≠ ((c :: rest).get ⟨n + 1, hi⟩).id := hfirst 0 (by omega) (by omega)
      simp only [List.get_cons_succ] at hc ⊢
      rw [spliceOut, if_neg hc]
      rw [ih n (by simpa using hi)
        (fun j hj hlt => by simpa using hfirst (j + 1) (by omega) (by omega))]
      simp [List.append_assoc]

/-- Claim C2.  The promoting delete at the parent of the node at index
`i`: the node is removed and its children are reinserted at its former
index, in their original order, with the former siblings before and
after undisturbed; hence the parent's child count changes by exactly
`N - 1` for a node with `N` children.  The last conjunct ties the
root-level `deleteNodeOnly` to the same splice when the parent is the
document root.  (The first-match hypothesis on ids holds whenever ids
are unique, the documented invariant.) -/
theorem deleteNodeOnly_promotes (p : DocNode) (i : Nat) (hi : i < p.children.length)
    (hfirst : ∀ j (hj : j < p.children.length), j < i →
      (p.children.get ⟨j, hj⟩).id ≠ (p.children.get ⟨i, hi⟩).id) :
    (delOnlyNode (p.children.get ⟨i, hi⟩).id p).children
        = p.children.take i ++ (p.children.get ⟨i, hi⟩).children ++ p.children.drop (i + 1) ∧
    (delOnlyNode (p.children.get ⟨i, hi⟩).id p).children.length + 1
        = p.children.length + (p.children.get ⟨i, hi⟩).children.length ∧
    (∀ doc : DocumentRoot, doc.children = p.children →
      (deleteNodeOnly (p.children.get ⟨i, hi⟩).id doc).children
        = p.children.take i ++ (p.children.get ⟨i, hi⟩).children ++ p.children.drop (i + 1)) := by
  cases p with
  | mk pid pk cs =>
    simp only [DocNode.children] at hi hfirst ⊢
    have hany : cs.any (fun c => c.id = (cs.get ⟨i, hi⟩).id) = true := by
      rw [List.any_eq_true]
      exact ⟨cs.get ⟨i, hi⟩, List.get_mem cs i hi, by simp⟩
    have hsp := spliceOut_of_first cs i hi hfirst
    have hdel : delOnlyNode (cs.get ⟨i, hi⟩).id (DocNode.mk pid pk cs)
        = DocNode.mk pid pk (spliceOut (cs.get ⟨i, hi⟩).id cs) := by
      simp only [delOnlyNode]
      rw [if_pos hany]
    refine ⟨?_, ?_, ?_⟩
    · rw [hdel]
      simpa only [DocNode.children] using hsp
    · rw [hdel]
      simp only [DocNode.children, hsp]
      have h1 : (cs.take i).length = i := by
        rw [List.length_take]; omega
      have h2 : (cs.drop (i + 1)).length = cs.length - (i + 1) := List.length_drop _ _
      simp [List.length_append, h1, h2]
      omega
    · intro doc hdoc
      simp only [deleteNodeOnly, hdoc]
      rw [if_pos hany]
      exact hsp

/-- Claim C2 witness: deleting a concrete two-child node promotes the
two children into its place between the former siblings. -/
theorem deleteNodeOnly_promotes_witness :
    (delOnlyNode "m" (DocNode.mk "p" .pagebreak
        [.mk "a" .pagebreak [],
         .mk "m" .pagebreak [.mk "m1" .pagebreak [], .mk "m2" .pagebreak []],
         .mk "z" .pagebreak []])).children
      = [DocNode.mk "a" .pagebreak [],
         .mk "m1" .pagebreak [], .mk "m2" .pagebreak [],
         .mk "z" .pagebreak []] ∧
    (delOnlyNode "m" (DocNode.mk "p" .pagebreak
        [.mk "a" .pagebreak [],
         .mk "m" .pagebreak [.mk "m1" .pagebreak [], .mk "m2" .pagebreak []],
         .mk "z" .pagebreak []])).children.length + 1 = 3 + 2 := by
  have h := deleteNodeOnly_promotes (DocNode.mk "p" .pagebreak
      [.mk "a" .pagebreak [],
       .mk "m" .pagebreak [.mk "m1" .pagebreak [], .mk "m2" .pagebreak []],
       .mk "z" .pagebreak []]) 1 (by decide)
    (fun j hj hlt => by
      cases j with
      | zero => exact (by decide : ("a" : String) ≠ "m")
      | succ n => exact absurd hlt (by omega))
  exact ⟨h.1, h.2.1⟩

/- ---------- claim C10: generator totality and defaults ---------- -/

theorem renderCells_nil_colors : ∀ (i : Nat) (row : List String),
    renderCells [] i row = row.map escS := by
  intro i row
  induction row generalizing i with
  | nil => rfl
  | cons c rest ih => simp [renderCells, renderCell, truthyStr, ih]

/-- Claim C10.  The generator is total by construction (every branch of
the embedding is a total function, mirroring the `|| []`, `?? ''` and
optional-chaining guards of the source), and on shape-degenerate input
it falls back as the claim states: a row index beyond the `cells` grid
renders as an empty row; a row beyond the `cellColors` grid renders all
its cells uncolored; a heading with an absent title renders an empty
title argument; a text node with absent content emits nothing of its
own. -/
theorem generateLatex_total_defaults :
    (∀ (t : TableData) (r : Nat), t.cells.length ≤ r → tableRowLine t r = "     \\\\") ∧
    (∀ (t : TableData) (r : Nat), t.cellColors.length ≤ r →
      tableRowLine t r
        = "    " ++ String.intercalate " & " ((t.cells.getD r []).map escS) ++ " \\\\") ∧
    (∀ (i : String) (cs : List DocNode),
      emitNode (.mk i (.chapter none) cs) = ["\\chapter\x7b\x7d", ""] ++ emitNodeList cs) ∧
    (∀ (i : String) (cs : List DocNode),
      emitNode (.mk i (.text none) cs) = emitNodeList cs) := by
  refine ⟨?_, ?_, fun i cs => rfl, fun i cs => rfl⟩
  · intro t r h
    simp only [tableRowLine]
    rw [List.getD_eq_default _ _ h]
    rfl
  · intro t r h
    simp only [tableRowLine]
    rw [List.getD_eq_default _ _ h, renderCells_nil_colors]

/- ---------- claim C9: underscore escaping ---------- -/

theorem escS_data (s : String) : (escS s).data = s.data.flatMap escChar := rfl

theorem hbu_pair (l : List Char) :
    hasBareUnderscore ('\\' :: '_' :: l) = hasBareUnderscore l := rfl

theorem hbu_cons (c : Char) (l : List Char) (h1 : c ≠ '_') (h2 : c ≠ '\\') :
    hasBareUnderscore (c :: l) = hasBareUnderscore l := by
  simp [hasBareUnderscore, h1, h2]

theorem hbu_backslash_cons (x : Char) (l : List Char) (hx : x ≠ '_') :
    hasBareUnderscore ('\\' :: x :: l) = hasBareUnderscore (x :: l) := by
  simp [hasBareUnderscore, hx]

/-- The escape transform never produces a leading underscore. -/
theorem escFlat_head_ne (l : List Char) : ∀ t, l.flatMap escChar ≠ '_' :: t := by
  cases l with
  | nil => intro t h; simp at h
  | cons c rest =>
    intro t h
    by_cases hc : c = '_'
    · simp [escChar, hc] at h
    · simp only [List.flatMap_cons, escChar, if_neg hc, List.singleton_append,
        List.cons.injEq] at h
      exact hc h.1

/-- Core scan lemma: escaped text followed by a clean tail has no bare
underscore. -/
theorem hbu_escFlat_append : ∀ (l tail : List Char),
    hasBareUnderscore tail = false → (∀ t', tail ≠ '_' :: t') →
    hasBareUnderscore (l.flatMap escChar ++ tail) = false := by
  intro l
  induction l with
  | nil =>
    intro tail h1 _
    simpa using h1
  | cons c rest ih =>
    intro tail h1 h2
    by_cases hc : c = '_'
    · subst hc
      have : ('_' :: rest).flatMap escChar ++ tail
          = '\\' :: '_' :: (rest.flatMap escChar ++ tail) := by
        simp [escChar]
      rw [this, hbu_pair]
      exact ih tail h1 h2
    · by_cases hb : c = '\\'
      · subst hb
        have hsh : ('\\' :: rest).flatMap escChar ++ tail
            = '\\' :: (rest.flatMap escChar ++ tail) := by
          simp [escChar]
        rw [hsh]
        cases hx : rest.flatMap escChar ++ tail with
        | nil => rfl
        | cons y ys =>
          have hy : y ≠ '_' := by
            intro hy'
            subst hy'
            cases hr : rest.flatMap escChar with
            | nil =>
              rw [hr, List.nil_append] at hx
              exact h2 ys hx
            | cons z zs =>
              rw [hr, List.cons_append] at hx
              injection hx with hz _
              exact escFlat_head_ne rest zs (by rw [hr, hz])
          rw [hbu_backslash_cons y ys hy, ← hx]
          exact ih tail h1 h2
      · have : (c :: rest).flatMap escChar ++ tail
            = c :: (rest.flatMap escChar ++ tail) := by
          simp [escChar, hc]
        rw [this, hbu_cons c _ hc hb]
        exact ih tail h1 h2

/-- A clean fixed chunk (no underscore, no backslash) scans through. -/
theorem hbu_clean_append (p : List Char) (h1 : '_' ∉ p) (h2 : '\\' ∉ p)
    (X : List Char) : hasBareUnderscore (p ++ X) = hasBareUnderscore X := by
  induction p with
  | nil => rfl
  | cons c rest ih =>
    have hc : c ≠ '_' := fun h => h1 (h ▸ List.mem_cons_self c rest)
    have hb : c ≠ '\\' := fun h => h2 (h ▸ List.mem_cons_self c rest)
    rw [List.cons_append, hbu_cons c _ hc hb]
    exact ih (fun h => h1 (List.mem_cons_of_mem c h))
      (fun h => h2 (List.mem_cons_of_mem c h))

/-- The escaped pair appears whenever the input had an underscore. -/
theorem escFlat_infix : ∀ l : List Char, '_' ∈ l → ['\\', '_'] <:+: l.flatMap escChar := by
  intro l h
  induction l with
  | nil => cases h
  | cons c rest ih =>
    by_cases hc : c = '_'
    · subst hc
      exact ⟨[], rest.flatMap escChar, by simp [escChar]⟩
    · have hr : '_' ∈ rest := by
        cases List.mem_cons.mp h with
        | inl h' => exact absurd h'.symm hc
        | inr h' => exact h'
      obtain ⟨a, b, hab⟩ := ih hr
      exact ⟨escChar c ++ a, b, by simp [List.append_assoc, hab]⟩

/-- Without underscores the escape transform is the identity. -/
theorem escFlat_id : ∀ l : List Char, '_' ∉ l → l.flatMap escChar = l := by
  intro l h
  induction l with
  | nil => rfl
  | cons c rest ih =>
    have hc : c ≠ '_' := fun h' => h (h' ▸ List.mem_cons_self c rest)
    simp [escChar, hc]
    exact ih (fun h' => h (List.mem_cons_of_mem c h'))

/-- Claim C9.  User text passes through the single escape transform,
which (a) changes nothing but underscores (a string without `_` is
unchanged), (b) turns every underscore into the escaped pair `\_`, and
(c) leaves no bare (unescaped) underscore; concretely, the emitted title
line is in the output, contains the escaped pair whenever the title
contains an underscore, and never contains a bare underscore. -/
theorem underscore_escaping :
    (∀ s : String, '_' ∉ s.data → escS s = s) ∧
    (∀ s : String, '_' ∈ s.data → ['\\', '_'] <:+: (escS s).data) ∧
    (∀ s : String, hasBareUnderscore (escS s).data = false) ∧
    (∀ doc : DocumentRoot,
      ("\\title\x7b" ++ escS doc.title ++ "\x7d") ∈ docLines doc ∧
      hasBareUnderscore ("\\title\x7b" ++ escS doc.title ++ "\x7d").data = false ∧
      ('_' ∈ doc.title.data →
        ['\\', '_'] <:+: ("\\title\x7b" ++ escS doc.title ++ "\x7d").data)) := by
  refine ⟨?_, ?_, ?_, ?_⟩
  · intro s h
    cases s with
    | mk l => exact congrArg String.mk (escFlat_id l h)
  · intro s h
    exact escFlat_infix s.data h
  · intro s
    rw [escS_data]
    have := hbu_escFlat_append s.data [] rfl (fun t' h => by cases h)
    simpa using this
  · intro doc
    refine ⟨?_, ?_, ?_⟩
    · simp [docLines, preambleLines]
    · have hdata : ("\\title\x7b" ++ escS doc.title ++ "\x7d").data
          = '\\' :: 't' :: ("itle\x7b".data
              ++ (doc.title.data.flatMap escChar ++ ['\x7d'])) := rfl
      rw [hdata, hbu_backslash_cons 't' _ (by decide)]
      rw [show ('t' :: ("itle\x7b".data ++ (doc.title.data.flatMap escChar ++ ['\x7d'])))
            = "title\x7b".data ++ (doc.title.data.flatMap escChar ++ ['\x7d']) from rfl]
      rw [hbu_clean_append "title\x7b".data (by decide) (by decide)]
      exact hbu_escFlat_append doc.title.data ['\x7d'] rfl (fun t' h => by
        injection h with h1 _
        exact absurd h1 (by decide))
    · intro h
      have hin := escFlat_infix doc.title.data h
      have hfull : ("\\title\x7b" ++ escS doc.title ++ "\x7d").data
          = "\\title\x7b".data ++ (doc.title.data.flatMap escChar ++ ['\x7d']) := rfl
      rw [hfull]
      refine hin.trans ⟨"\\title\x7b".data, ['\x7d'], ?_⟩
      rw [List.append_assoc]

/-- Claim C9 witness: the escaping facts evaluated at concrete
strings and a concrete document. -/
theorem underscore_escaping_witness :
    escS "ab" = "ab" ∧
    (['\\', '_'] <:+: (escS "a_b").data) ∧
    hasBareUnderscore (escS "a_b").data = false ∧
    (['\\', '_'] <:+:
      ("\\title\x7b" ++ escS ({ createEmptyDocument with title := "My_Report" } : DocumentRoot).title ++ "\x7d").data) :=
  ⟨underscore_escaping.1 "ab" (by decide),
   underscore_escaping.2.1 "a_b" (by decide),
   underscore_escaping.2.2.1 "a_b",
   (underscore_escaping.2.2.2 { createEmptyDocument with title := "My_Report" }).2.2 (by decide)⟩

/-- Claim C10 witness: the defaults evaluated at concrete degenerate
inputs. -/
theorem generateLatex_total_defaults_witness :
    tableRowLine newTableData 5 = "     \\\\" ∧
    tableRowLine { newTableData with cellColors := [] } 0
      = "    " ++ String.intercalate " & "
          ((({ newTableData with cellColors := [] } : TableData).cells.getD 0 []).map escS)
          ++ " \\\\" ∧
    emitNode (.mk "c1" (.chapter none) []) = ["\\chapter\x7b\x7d", ""] ++ emitNodeList [] ∧
    emitNode (.mk "t1" (.text none) []) = emitNodeList [] :=
  ⟨generateLatex_total_defaults.1 newTableData 5 (by decide),
   generateLatex_total_defaults.2.1 { newTableData with cellColors := [] } 0 (by decide),
   generateLatex_total_defaults.2.2.1 "c1" [],
   generateLatex_total_defaults.2.2.2 "t1" []⟩

/- ---------- claim C4: id uniqueness under the add actions ---------- -/

theorem idsList_append : ∀ (a b : List DocNode), idsList (a ++ b) = idsList a ++ idsList b := by
  intro a b
  induction a with
  | nil => rfl
  | cons c rest ih =>
    rw [List.cons_append]
    simp only [idsList]
    rw [ih, List.append_assoc]

/-- A successful id lookup means the id occurs in the subtree. -/
theorem findNode_mem_ids (sid : String) :
    (∀ n : DocNode, ∀ m, findNodeInNode sid n = some m → sid ∈ nodeIds n) ∧
    (∀ cs : List DocNode, ∀ m, findNodeInList sid cs = some m → sid ∈ idsList cs) := by
  refine docNode_ind _ _ ?_ ?_ ?_
  · intro i k cs hQ m hfind
    by_cases hi : i = sid
    · simp [nodeIds, hi]
    · simp only [findNodeInNode, if_neg hi] at hfind
      simp only [nodeIds]
      exact List.mem_cons_of_mem _ (hQ m hfind)
  · intro m h
    simp [findNodeInList] at h
  · intro c cs hP hQ m hfind
    simp only [findNodeInList] at hfind
    simp only [idsList]
    cases hc : findNodeInNode sid c with
    | some n => exact List.mem_append_left _ (hP n hc)
    | none =>
      rw [hc] at hfind
      exact List.mem_append_right _ (hQ m hfind)

/-- Appending a fresh child at the (at most one) node carrying `sid`
adds exactly the child's ids; with `sid` absent nothing changes. -/
theorem appendAt_ids (sid : String) (child : DocNode) :
    (∀ n : DocNode, (nodeIds n).count sid ≤ 1 →
      (sid ∈ nodeIds n →
        (nodeIds (appendAtNode sid child n)).Perm (nodeIds child ++ nodeIds n)) ∧
      (sid ∉ nodeIds n → nodeIds (appendAtNode sid child n) = nodeIds n)) ∧
    (∀ cs : List DocNode, (idsList cs).count sid ≤ 1 →
      (sid ∈ idsList cs →
        (idsList (appendAtList sid child cs)).Perm (nodeIds child ++ idsList cs)) ∧
      (sid ∉ idsList cs → idsList (appendAtList sid child cs) = idsList cs)) := by
  refine docNode_ind _ _ ?_ ?_ ?_
  · intro i k cs hQ hcount
    simp only [nodeIds] at hcount
    by_cases hi : i = sid
    · subst hi
      have happ : appendAtNode i child (DocNode.mk i k cs)
          = DocNode.mk i k (cs ++ [child]) := by
        simp [appendAtNode]
      constructor
      · intro _
        rw [happ]
        simp only [nodeIds, idsList_append]
        have h1 : idsList [child] = nodeIds child := by simp [idsList]
        rw [h1]
        exact (List.Perm.cons i List.perm_append_comm).trans List.perm_middle.symm
      · intro hnot
        exact absurd (List.mem_cons_self i (idsList cs)) hnot
    · have happ : appendAtNode sid child (DocNode.mk i k cs)
          = DocNode.mk i k (appendAtList sid child cs) := by
        simp [appendAtNode, hi]
      have hcount' : (idsList cs).count sid ≤ 1 := by
        rwa [List.count_cons_of_ne (fun h => hi h.symm)] at hcount
      have hQ' := hQ hcount'
      constructor
      · intro hmem
        simp only [nodeIds, List.mem_cons] at hmem
        have hmem' : sid ∈ idsList cs := by
          rcases hmem with h | h
          · exact absurd h.symm hi
          · exact h
        rw [happ]
        simp only [nodeIds]
        exact (List.Perm.cons i (hQ'.1 hmem')).trans List.perm_middle.symm
      · intro hnot
        have hnot' : sid ∉ idsList cs := fun h => hnot (List.mem_cons_of_mem _ h)
        rw [happ]
        simp only [nodeIds, hQ'.2 hnot']
  · intro _
    exact ⟨fun h => absurd h (List.not_mem_nil sid), fun _ => rfl⟩
  · intro c cs hP hQ hcount
    simp only [idsList, List.count_append] at hcount
    have hcA : (nodeIds c).count sid ≤ 1 := by omega
    have hcB : (idsList cs).count sid ≤ 1 := by omega
    have hPc := hP hcA
    have hQc := hQ hcB
    simp only [idsList, appendAtList]
    constructor
    · intro hmem
      rcases List.mem_append.mp hmem with hA | hB
      · have hBnot : sid ∉ idsList cs := by
          intro hB
          have h1 : 0 < (nodeIds c).count sid := List.count_pos_iff.mpr hA
          have h2 : 0 < (idsList cs).count sid := List.count_pos_iff.mpr hB
          omega
        rw [hQc.2 hBnot]
        have h3 := (hPc.1 hA).append_right (idsList cs)
        rw [List.append_assoc] at h3
        exact h3
      · have hAnot : sid ∉ nodeIds c := by
          intro hA
          have h1 : 0 < (nodeIds c).count sid := List.count_pos_iff.mpr hA
          have h2 : 0 < (idsList cs).count sid := List.count_pos_iff.mpr hB
          omega
        rw [hPc.2 hAnot]
        have h3 := List.Perm.append_left (nodeIds c) (hQc.1 hB)
        have h4 : (nodeIds c ++ (nodeIds child ++ idsList cs)).Perm
            (nodeIds child ++ (nodeIds c ++ idsList cs)) := by
          rw [← List.append_assoc, ← List.append_assoc]
          exact List.Perm.append_right _ List.perm_append_comm
        exact h3.trans h4
    · intro hnot
      have hA : sid ∉ nodeIds c := fun h => hnot (List.mem_append_left _ h)
      have hB : sid ∉ idsList cs := fun h => hnot (List.mem_append_right _ h)
      rw [hPc.2 hA, hQc.2 hB]

/-- Appending a fresh leaf to the root's children adds exactly its id. -/
theorem appendRoot_ids (child : DocNode) (doc : DocumentRoot)
    (hleaf : nodeIds child = [child.id]) :
    (docIds { doc with children := doc.children ++ [child] }).Perm
      (child.id :: docIds doc) := by
  simp only [docIds, idsList_append]
  have h1 : idsList [child] = [child.id] := by simp [idsList, hleaf]
  rw [h1]
  exact (List.Perm.cons _ (List.perm_append_singleton _ _)).trans
    (List.Perm.swap _ _ _)

/-- Appending a fresh leaf at a present unique id adds exactly its id. -/
theorem appendAtDoc_ids (sid : String) (child : DocNode) (doc : DocumentRoot)
    (hu : (docIds doc).Nodup) (hleaf : nodeIds child = [child.id])
    (hmem : sid ∈ idsList doc.children) :
    (docIds { doc with children := appendAtList sid child doc.children }).Perm
      (child.id :: docIds doc) := by
  have hcount : (idsList doc.children).count sid ≤ 1 :=
    List.nodup_iff_count_le_one.mp (List.nodup_cons.mp hu).2 sid
  have hperm := ((appendAt_ids sid child).2 doc.children hcount).1 hmem
  rw [hleaf] at hperm
  simp only [List.singleton_append] at hperm
  simp only [docIds]
  exact (List.Perm.cons _ hperm).trans (List.Perm.swap _ _ _)

theorem appendToTarget_ids (sel : Option String) (child : DocNode) (doc : DocumentRoot)
    (hu : (docIds doc).Nodup) (hleaf : nodeIds child = [child.id]) :
    (docIds (appendToTarget sel child doc)).Perm (child.id :: docIds doc) := by
  cases sel with
  | none => exact appendRoot_ids child doc hleaf
  | some sid =>
    cases hfind : findNodeInList sid doc.children with
    | none =>
      have heq : appendToTarget (some sid) child doc
          = { doc with children := doc.children ++ [child] } := by
        simp only [appendToTarget, hfind]
      rw [heq]
      exact appendRoot_ids child doc hleaf
    | some n =>
      have heq : appendToTarget (some sid) child doc
          = { doc with children := appendAtList sid child doc.children } := by
        simp only [appendToTarget, hfind]
      rw [heq]
      exact appendAtDoc_ids sid child doc hu hleaf
        ((findNode_mem_ids sid).2 doc.children n hfind)

/-- One add step either leaves the tree untouched (a no-op
`addSubsection`) or adds exactly the stamped id. -/
theorem applyAdd_ids (op : AddOp) (now : Nat) (sel : Option String) (doc : DocumentRoot)
    (hu : (docIds doc).Nodup) :
    docIds (applyAdd op now sel doc) = docIds doc ∨
    (docIds (applyAdd op now sel doc)).Perm (stampedId op now :: docIds doc) := by
  cases op with
  | chapter =>
    exact Or.inr (appendRoot_ids (newChapterNode now) doc rfl)
  | sect =>
    cases sel with
    | none => exact Or.inr (appendRoot_ids (newSectionNode now) doc rfl)
    | some sid =>
      cases hfind : findNodeInList sid doc.children with
      | none =>
        right
        have heq : applyAdd AddOp.sect now (some sid) doc
            = { doc with children := doc.children ++ [newSectionNode now] } := by
          simp only [applyAdd, addSection, hfind]
        rw [heq]
        exact appendRoot_ids (newSectionNode now) doc rfl
      | some n =>
        by_cases hhead : n.kind.isHeading = true
        · right
          have heq : applyAdd AddOp.sect now (some sid) doc
              = { doc with children := appendAtList sid (newSectionNode now) doc.children } := by
            simp only [applyAdd, addSection, hfind, hhead, if_true]
          rw [heq]
          exact appendAtDoc_ids sid (newSectionNode now) doc hu rfl
            ((findNode_mem_ids sid).2 doc.children n hfind)
        · right
          have heq : applyAdd AddOp.sect now (some sid) doc
              = { doc with children := doc.children ++ [newSectionNode now] } := by
            simp only [applyAdd, addSection, hfind, hhead, if_false]
            simp [Bool.not_eq_true] at hhead
            simp [hhead]
          rw [heq]
          exact appendRoot_ids (newSectionNode now) doc rfl
  | subsection =>
    cases sel with
    | none => exact Or.inl rfl
    | some sid =>
      cases hfind : findNodeInList sid doc.children with
      | none =>
        left
        have heq : applyAdd AddOp.subsection now (some sid) doc = doc := by
          simp only [applyAdd, addSubsection, hfind]
        rw [heq]
      | some n =>
        by_cases hsec : n.kind.isSectionLike = true
        · right
          have heq : applyAdd AddOp.subsection now (some sid) doc
              = { doc with children := appendAtList sid (newSubsectionNode now) doc.children } := by
            simp only [applyAdd, addSubsection, hfind, hsec, if_true]
          rw [heq]
          exact appendAtDoc_ids sid (newSubsectionNode now) doc hu rfl
            ((findNode_mem_ids sid).2 doc.children n hfind)
        · left
          have heq : applyAdd AddOp.subsection now (some sid) doc = doc := by
            simp only [applyAdd, addSubsection, hfind]
            simp [Bool.not_eq_true] at hsec
            simp [hsec]
          rw [heq]
  | text => exact Or.inr (appendToTarget_ids sel (newTextNode now) doc hu rfl)
  | table => exact Or.inr (appendToTarget_ids sel (newTableNode now) doc hu rfl)
  | figure => exact Or.inr (appendToTarget_ids sel (newFigureNode now) doc hu rfl)
  | pagebreak => exact Or.inr (appendToTarget_ids sel (newPageBreakNode now) doc hu rfl)

/-- Sequence invariant: distinct pending stamps that avoid the ids
already present keep the whole tree's ids unique. -/
theorem applyAdds_nodup : ∀ (ops : List (AddOp × Nat × Option String)) (doc : DocumentRoot),
    (docIds doc).Nodup →
    (ops.map fun s => stampedId s.1 s.2.1).Nodup →
    (∀ s ∈ ops, stampedId s.1 s.2.1 ∉ docIds doc) →
    (docIds (applyAdds ops doc)).Nodup := by
  intro ops
  induction ops with
  | nil =>
    intro doc hu _ _
    exact hu
  | cons s rest ih =>
    intro doc hu hnod hfresh
    have happly : applyAdds (s :: rest) doc
        = applyAdds rest (applyAdd s.1 s.2.1 s.2.2 doc) := rfl
    rw [happly]
    have hnodRest : (rest.map fun s => stampedId s.1 s.2.1).Nodup :=
      (List.nodup_cons.mp (by simpa using hnod)).2
    have hheadFresh : stampedId s.1 s.2.1 ∉ (rest.map fun s => stampedId s.1 s.2.1) :=
      (List.nodup_cons.mp (by simpa using hnod)).1
    rcases applyAdd_ids s.1 s.2.1 s.2.2 doc hu with heq | hperm
    · apply ih _ (by rw [heq]; exact hu) hnodRest
      intro s' hs'
      rw [heq]
      exact hfresh s' (List.mem_cons_of_mem _ hs')
    · have hu' : (docIds (applyAdd s.1 s.2.1 s.2.2 doc)).Nodup := by
        rw [hperm.nodup_iff]
        exact List.nodup_cons.mpr ⟨hfresh s (List.mem_cons_self _ _), hu⟩
      apply ih _ hu' hnodRest
      intro s' hs' hmem
      have hmem' : stampedId s'.1 s'.2.1 ∈ stampedId s.1 s.2.1 :: docIds doc :=
        hperm.mem_iff.mp hmem
      rcases List.mem_cons.mp hmem' with hcase | hcase
      · exact hheadFresh (hcase ▸ List.mem_map_of_mem _ hs')
      · exact hfresh s' (List.mem_cons_of_mem _ hs') hcase

/-- No stamped id collides with the fixed root id. -/
theorem stampedId_ne_root (op : AddOp) (now : Nat) : stampedId op now ≠ "doc-1" := by
  cases op with
  | chapter => exact append_ne_of_not_lead "chap-" (toString now) "doc-1" (by decide)
  | sect => exact append_ne_of_not_lead "sec-" (toString now) "doc-1" (by decide)
  | subsection => exact append_ne_of_not_lead "sub-" (toString now) "doc-1" (by decide)
  | text => exact append_ne_of_not_lead "txt-" (toString now) "doc-1" (by decide)
  | table => exact append_ne_of_not_lead "tab-" (toString now) "doc-1" (by decide)
  | figure => exact append_ne_of_not_lead "fig-" (toString now) "doc-1" (by decide)
  | pagebreak => exact append_ne_of_not_lead "pb-" (toString now) "doc-1" (by decide)

/-- Claim C4 counterexample.  Ids are stamped as a type prefix plus
`Date.now()`; two adds of the same node type observing the same
millisecond stamp the same id.  Two `addText` calls with timestamp 5
produce two nodes both named `txt-5`: ids are not unique as the claim
states. -/
theorem addText_same_millisecond_collision :
    ¬ uniqueIds (applyAdds [(.text, 5, none), (.text, 5, none)] createEmptyDocument) := by
  decide

/-- Claim C4 as amended.  If no two add operations in the sequence stamp
the same id — that is, operations with the same node-type prefix never
observe the same `Date.now()` value — then, starting from the empty
document, every node's identifier is unique across the whole tree. -/
theorem addSequence_unique_ids (ops : List (AddOp × Nat × Option String))
    (h : (ops.map fun s => stampedId s.1 s.2.1).Nodup) :
    uniqueIds (applyAdds ops createEmptyDocument) := by
  apply applyAdds_nodup ops createEmptyDocument (by decide) h
  intro s _ hmem
  have hroot : docIds createEmptyDocument = ["doc-1"] := rfl
  rw [hroot] at hmem
  simp only [List.mem_singleton] at hmem
  exact stampedId_ne_root s.1 s.2.1 hmem

/-- Claim C4 witness: a concrete sequence with distinct stamps yields
unique ids. -/
theorem addSequence_unique_ids_witness :
    ((([(.text, 1, none), (.table, 1, none), (.text, 2, none)] :
        List (AddOp × Nat × Option String)).map fun s => stampedId s.1 s.2.1).Nodup) ∧
    uniqueIds (applyAdds [(.text, 1, none), (.table, 1, none), (.text, 2, none)]
      createEmptyDocument) :=
  ⟨by decide, addSequence_unique_ids _ (by decide)⟩
